import Mathlib

/-!
# DNS Jumper (metidev/DNS-Jumper-linux) — verification of `main.py`

A shallow embedding of the pure core of `src/main.py` and proofs about it.

Modelling conventions:
* Python strings are modelled as `List Char` (`PyStr`); a Lean string
  literal `s` is injected with `pys s := s.data`.  Python `str.strip`,
  `str.split(sep)` (single-character separator) and lexicographic string
  comparison are re-implemented structurally (`pyStrip`, `splitOnChar`,
  `pyStrLe`) so that every concrete evaluation reduces by `decide`.
* Python floats (latencies) are modelled as `ℚ`; the claims under study
  only involve comparisons, sums and one division, where rationals agree
  with IEEE doubles on all the concrete values used.
* Network and subprocess effects (`dns.resolver`, `nmcli`, `pkexec`) are
  parameters of the embedded functions: each external call is an oracle
  argument describing its observable outcome, and the embedded function
  reproduces the branching of the source on those outcomes.
-/

/-- A Python string: a list of characters. -/
abbrev PyStr := List Char

/-- Inject a Lean string literal into the model. -/
def pys (s : String) : PyStr := s.data

/-- Characters stripped by Python `str.strip()` (ASCII whitespace; the
claims only exercise the plain space). -/
def pyIsSpace (c : Char) : Bool :=
  c = ' ' || c = '\t' || c = '\n' || c = '\r' || c = '\x0b' || c = '\x0c'

/-- Python `s.strip()`: drop whitespace from both ends. -/
def pyStrip (s : PyStr) : PyStr :=
  ((s.dropWhile pyIsSpace).reverse.dropWhile pyIsSpace).reverse

/-- Python `s.split(sep)` for a one-character separator `sep`:
`"".split(sep) = [""]`, separators delimit (possibly empty) groups. -/
def splitOnChar (sep : Char) : PyStr → List PyStr
  | [] => [[]]
  | c :: cs =>
    let r := splitOnChar sep cs
    if c = sep then [] :: r
    else
      match r with
      | [] => [[c]]
      | g :: gs => (c :: g) :: gs

/-- Python string `<=`: lexicographic comparison by code point. -/
def pyStrLe : PyStr → PyStr → Bool
  | [], _ => true
  | _ :: _, [] => false
  | c :: cs, d :: ds => if c < d then true else if d < c then false else pyStrLe cs ds

/-! ## Validation (`is_valid_ip`, `sanitize_servers`; main.py lines 69–97) -/

/-- One group of the IPv4 regex `(?:\d{1,3}\.){3}\d{1,3}`:
one to three decimal digits. -/
def ipv4GroupShape (p : PyStr) : Bool :=
  decide (1 ≤ p.length) && decide (p.length ≤ 3) && p.all Char.isDigit

/-- `_ipv4_re.match(a)`: the whole string is exactly four dot-separated
groups of one to three decimal digits.  Splitting on `'.'` and checking
each group is equivalent to the anchored regex. -/
def ipv4ReMatch (a : PyStr) : Bool :=
  let parts := splitOnChar '.' a
  decide (parts.length = 4) && parts.all ipv4GroupShape

/-- One character of the permissive IPv6 regex `[0-9A-Fa-f:]`. -/
def isHexDigitOrColon (c : Char) : Bool :=
  c.isDigit || ('A' ≤ c && c ≤ 'F') || ('a' ≤ c && c ≤ 'f') || c = ':'

/-- Python `int(p)` on a non-empty all-digit string. -/
def parseDec (p : PyStr) : Nat :=
  p.foldl (fun n c => 10 * n + (c.toNat - 48)) 0

/-- `is_valid_ip(addr)` (main.py 72–84): strip; empty is invalid; if the
IPv4 regex matches return the 0–255 range check of the four groups
(`int` never raises there since the groups are 1–3 digits, so the
`except ValueError` branch is dead); otherwise a string containing `':'`
is valid iff it consists only of hex digits and colons. -/
def is_valid_ip (addr : PyStr) : Bool :=
  let a := pyStrip addr
  if a = [] then false
  else if ipv4ReMatch a then
    (splitOnChar '.' a).all (fun p => decide (parseDec p ≤ 255))
  else if a.contains ':' then a.all isHexDigitOrColon
  else false

/-- The two failures `sanitize_servers` can raise (`ValueError` messages
"Invalid IP address: {s}" and "Provide two valid servers"). -/
inductive SanitizeError where
  | invalidAddress : PyStr → SanitizeError
  | insufficientServers : SanitizeError
deriving DecidableEq

instance {ε α : Type} [DecidableEq ε] [DecidableEq α] : DecidableEq (Except ε α) := fun x y =>
  match x, y with
  | Except.ok a, Except.ok b =>
    if h : a = b then Decidable.isTrue (congrArg Except.ok h)
    else Decidable.isFalse (fun hh => h (Except.ok.inj hh))
  | Except.error e, Except.error f =>
    if h : e = f then Decidable.isTrue (congrArg Except.error h)
    else Decidable.isFalse (fun hh => h (Except.error.inj hh))
  | Except.ok _, Except.error _ => Decidable.isFalse (fun hh => Except.noConfusion hh)
  | Except.error _, Except.ok _ => Decidable.isFalse (fun hh => Except.noConfusion hh)

/-- The `for` loop of `sanitize_servers` (main.py 87–94): strip each
entry, skip empties, raise at the first entry failing `is_valid_ip`,
collect the rest in order. -/
def sanitizeLoop : List PyStr → Except SanitizeError (List PyStr)
  | [] => Except.ok []
  | s :: rest =>
    let t := pyStrip s
    if t = [] then sanitizeLoop rest
    else if is_valid_ip t = false then Except.error (SanitizeError.invalidAddress t)
    else
      match sanitizeLoop rest with
      | Except.error e => Except.error e
      | Except.ok out => Except.ok (t :: out)

/-- `sanitize_servers(servers)` (main.py 86–97): run the loop, then
require at least two surviving entries. -/
def sanitize_servers (servers : List PyStr) : Except SanitizeError (List PyStr) :=
  match sanitizeLoop servers with
  | Except.error e => Except.error e
  | Except.ok out =>
    if out.length < 2 then Except.error SanitizeError.insufficientServers
    else Except.ok out

/-- The entries that survive trimming and empty-dropping, in order. -/
def cleaned (servers : List PyStr) : List PyStr :=
  (servers.map pyStrip).filter (fun t => t ≠ [])

/-! ## Persistence (`load_profiles`, `save_profiles`; main.py 47–66)

`json.load` is external; its outcome is modelled as
`Option (List RawRecord)`: `none` when the file's content fails to parse
(the `except` branch), `some data` when it yields a list of records.
`RawRecord` covers exactly the record shapes the loader handles without
raising inside the `try`: an optional string `name` and a `servers`
field that is missing, a legacy comma-separated string, or a list of
strings. -/

/-- The `servers` field of a persisted record. -/
inductive ServersField where
  | missing : ServersField
  | legacy : PyStr → ServersField
  | strList : List PyStr → ServersField
deriving DecidableEq

/-- One persisted record as `json.load` hands it to the loop. -/
structure RawRecord where
  name : Option PyStr
  servers : ServersField
deriving DecidableEq

/-- One in-memory profile (`{"name": ..., "servers": ...}`). -/
structure StoredProfile where
  name : PyStr
  servers : List PyStr
deriving DecidableEq

/-- `p.get("servers") or []` plus the `isinstance(servers, str)` split
(main.py 56–58): a missing field and the empty string are both coerced
to `[]`; a non-empty legacy string is split on commas, each piece
stripped, empties dropped. -/
def loadServersField : ServersField → List PyStr
  | ServersField.missing => []
  | ServersField.strList l => l
  | ServersField.legacy s =>
    if s = [] then []
    else ((splitOnChar ',' s).map pyStrip).filter (fun t => t ≠ [])

/-- One iteration of the load loop (main.py 55–59):
`name = (p.get("name") or "").strip()` and the servers coercion. -/
def loadRecord (r : RawRecord) : StoredProfile :=
  { name := pyStrip (match r.name with | none => [] | some s => s)
    servers := loadServersField r.servers }

/-- `load_profiles()` (main.py 47–62): a parse failure yields `[]`
(the `except` branch); otherwise every record is coerced in order. -/
def load_profiles (parsed : Option (List RawRecord)) : List StoredProfile :=
  match parsed with
  | none => []
  | some data => data.map loadRecord

/-- `save_profiles(profiles)` (main.py 64–66): `json.dump` writes each
profile back as a record with a string `name` and a list `servers`. -/
def save_profiles (profiles : List StoredProfile) : List RawRecord :=
  profiles.map (fun p =>
    { name := some p.name, servers := ServersField.strList p.servers })

/-- The claim's "well-formed" record: a `name` string and a `servers`
list of server strings. -/
def wellFormedRecord (r : RawRecord) : Bool :=
  r.name.isSome &&
    (match r.servers with
     | ServersField.strList _ => true
     | _ => false)

/-! ## Latency measurement (`measure_dns_latency`; main.py 100–115)

The per-server DNS exchange is external: `meas srv` is `some v` when the
probe of `srv` succeeds in `v` milliseconds and `none` on any failure
(the `except` branch swallows it).  `dnsAvailable` models
`dns is not None` (the import at main.py 32–35). -/

/-- The `for srv in servers` loop (main.py 104–114): collect successful
latencies in order, silently skipping failures. -/
def measureLoop (meas : PyStr → Option ℚ) : List PyStr → List ℚ → List ℚ
  | [], acc => acc
  | srv :: rest, acc =>
    match meas srv with
    | some v => measureLoop meas rest (acc ++ [v])
    | none => measureLoop meas rest acc

/-- `measure_dns_latency(servers)` (main.py 100–115): `None` when the
resolver library is absent or the list is empty; otherwise the mean of
the successful per-server measurements, or `None` if none succeeded. -/
def measure_dns_latency (dnsAvailable : Bool) (meas : PyStr → Option ℚ)
    (servers : List PyStr) : Option ℚ :=
  if dnsAvailable = false ∨ servers = [] then none
  else
    let latencies := measureLoop meas servers []
    if latencies = [] then none
    else some (latencies.sum / (latencies.length : ℚ))

/-! ## Activation (`apply_dns_with_one_pkexec`; main.py 140–183)

External outcomes are fields of `NetEnv`: the active connection reported
by `get_active_connection_and_device` (the uuid may be the empty string
when `nmcli` prints a leading colon — `if not uuid` also rejects that),
whether the single `pkexec` invocation succeeds, and the stripped
`ipv4.dns`/`ipv6.dns` read-back used for verification (`none` when the
`nmcli ... show` commands themselves fail).  Assembling `cmd_parts` is
pure string formatting with no observable branching and is omitted; the
active device only influences that command text. -/

structure NetEnv where
  activeUuid : Option PyStr
  pkexecSucceeds : Bool
  verifyOutput : Option (PyStr × PyStr)

/-- The distinct terminal failures of one activation attempt. -/
inductive ApplyError where
  | invalidAddress : PyStr → ApplyError
  | insufficientServers : ApplyError
  | noActiveConnection : ApplyError
  | applyFailed : ApplyError
  | verificationFailed : ApplyError
deriving DecidableEq

/-- Result of an activation attempt plus whether the privileged
`pkexec` command was ever started. -/
structure ApplyOutcome where
  result : Except ApplyError Unit
  pkexecInvoked : Bool
deriving DecidableEq

/-- `apply_dns_with_one_pkexec(servers)` (main.py 140–183): sanitize,
resolve the active connection, run the bundled privileged command, then
verify that `nmcli` shows a non-empty DNS setting. -/
def apply_dns_with_one_pkexec (env : NetEnv) (servers : List PyStr) : ApplyOutcome :=
  match sanitize_servers servers with
  | Except.error (SanitizeError.invalidAddress s) =>
    ⟨Except.error (ApplyError.invalidAddress s), false⟩
  | Except.error SanitizeError.insufficientServers =>
    ⟨Except.error ApplyError.insufficientServers, false⟩
  | Except.ok _ =>
    match env.activeUuid with
    | none => ⟨Except.error ApplyError.noActiveConnection, false⟩
    | some uuid =>
      if uuid = [] then ⟨Except.error ApplyError.noActiveConnection, false⟩
      else if env.pkexecSucceeds = false then ⟨Except.error ApplyError.applyFailed, true⟩
      else
        match env.verifyOutput with
        | none => ⟨Except.error ApplyError.verificationFailed, true⟩
        | some (out4, out6) =>
          if pyStrip out4 = [] ∧ pyStrip out6 = [] then
            ⟨Except.error ApplyError.verificationFailed, true⟩
          else ⟨Except.ok (), true⟩

/-! ## Best-profile selection (`on_find_best_dns` worker; main.py 573–599)

The worker walks the store in index order; `latency` is
`measure_dns_latency(servers) or 0.0`, so a failed measurement
contributes `0`.  `best_latency = float('inf')` together with
`best_index = -1` is the `none` accumulator; a profile replaces the
incumbent only when its latency is strictly smaller, so the first index
attaining the minimum wins ties.  The final gate
`if any_latency and best_servers` (main.py 608) is equivalent to the
accumulator being set: a positive latency forces a non-empty server
list, since `measure_dns_latency` returns `None` on an empty one. -/

/-- The scan of the worker loop: `i` is the index of the head of the
remaining list, `best` the incumbent `(best_latency, best_index)`
(`none` for `inf`/`-1`), `anyL` the `any_latency` flag. -/
def findBestAux : List ℚ → Nat → Option (ℚ × Nat) → Bool → Option (ℚ × Nat) × Bool
  | [], _, best, anyL => (best, anyL)
  | lat :: rest, i, best, anyL =>
    if 0 < lat then
      let best' :=
        match best with
        | none => some (lat, i)
        | some (bl, bi) => if lat < bl then some (lat, i) else some (bl, bi)
      findBestAux rest (i + 1) best' true
    else findBestAux rest (i + 1) best anyL

/-- The index the worker applies, given the per-profile latencies
(`0` standing for "measurement failed"). -/
def pickBest (lats : List ℚ) : Option Nat :=
  match findBestAux lats 0 none false with
  | (some (_, bi), true) => some bi
  | _ => none

/-- No strictly-positive latency occurs in `l`. -/
def NoPos (l : List ℚ) : Prop := ∀ x ∈ l, ¬ 0 < x

/-- `m` at position `k` is the strictly-positive minimum of `l`, and
`k` is the first position attaining it. -/
def PosMin (l : List ℚ) (m : ℚ) (k : Nat) : Prop :=
  l[k]? = some m ∧ 0 < m ∧
    ∀ j x, l[j]? = some x → 0 < x → m < x ∨ (m = x ∧ k ≤ j)

/-- What the `(best_latency, best_index)` accumulator means about the
latencies processed so far. -/
def BestInv (l : List ℚ) : Option (ℚ × Nat) → Prop
  | none => NoPos l
  | some (m, k) => PosMin l m k

/-! ## Sorting by latency (`on_sort_latency`; main.py 627–651)

A store item is a `(name, servers, latency)` tuple; `servers` is the
display string.  `rows.sort(key=..., reverse=...)` is Python's stable
sort, modelled by `List.insertionSort` (also stable) under the total
preorder induced by the tuple key; `reverse=True` is the stable sort
under the flipped key comparison. -/

/-- One row of the list store. -/
structure Row where
  name : PyStr
  servers : PyStr
  latency : ℚ
deriving DecidableEq

/-- The sort key `((r[2] if r[2] > 0 else 1e9), r[0])` (main.py 639). -/
def sortKey (r : Row) : ℚ × PyStr :=
  (if 0 < r.latency then r.latency else 1000000000, r.name)

/-- Python tuple `<=` on a `(float, str)` pair. -/
def keyLe (x y : ℚ × PyStr) : Bool :=
  if x.1 < y.1 then true else if y.1 < x.1 then false else pyStrLe x.2 y.2

/-- Row comparison in the requested direction: `asc = true` is the plain
key order, `asc = false` the flipped one (`reverse=True`). -/
def relRow (asc : Bool) (a b : Row) : Prop :=
  (if asc then keyLe (sortKey a) (sortKey b) else keyLe (sortKey b) (sortKey a)) = true

instance (asc : Bool) : DecidableRel (relRow asc) := fun _ _ =>
  instDecidableEqBool _ _

/-- `rows.sort(key=lambda r: ((r[2] if r[2] > 0 else 1e9), r[0]),
reverse=not ascending)`: a stable sort in the requested direction. -/
def sortRows (asc : Bool) (rows : List Row) : List Row :=
  rows.insertionSort (relRow asc)

/-- The state `on_sort_latency` reads and writes: the direction flag
`_sort_asc` (main.py 417), the `_latency_measured` flag and the store. -/
structure SortState where
  sortAsc : Bool
  latencyMeasured : Bool
  rows : List Row
deriving DecidableEq

/-- The state as `MainWindow.__init__` leaves it: `_sort_asc = True`
(main.py 417) and `_latency_measured = False` (main.py 316). -/
def initSortState (rows : List Row) : SortState :=
  { sortAsc := true, latencyMeasured := false, rows := rows }

/-- `on_sort_latency` (main.py 627–651).  It takes no direction
argument: the direction comes from `_sort_asc`.  The call is rejected
(store untouched, `none`) when no test has run or no row has a
strictly-positive latency (`all((r[2] or 0.0) <= 0.0 ...)`); otherwise
the rows are sorted with `reverse=not _sort_asc` and the flag flips.
Persisting the reordered list (`save_profiles`) only mirrors the
returned rows and is not modelled separately. -/
def on_sort_latency (st : SortState) : SortState × Option (List Row) :=
  if st.latencyMeasured = false then (st, none)
  else if st.rows.all (fun r => decide (r.latency ≤ 0)) then (st, none)
  else
    let sorted := sortRows st.sortAsc st.rows
    ({ st with sortAsc := !st.sortAsc, rows := sorted }, some sorted)

/-! ## Applying the selected profile (`on_set_selected`; main.py 653–694)

The handler's synchronous part: the `_is_setting_dns` guard, the
selection and server-count checks (each reported through a toast), and
on success setting the flag and starting the worker whose single
`apply_dns_with_one_pkexec` call is counted by `applyCalls`.  The
worker's later completion (resetting the flag, reporting the result) is
a separate event that none of the claims here depend on.
`selectedIdx = none` models `_get_selected_index() < 0`; the GUI's
single-selection model keeps any `some idx` within bounds, and the
(unreachable) out-of-bounds case is a no-op. -/

structure UiState where
  isSettingDns : Bool
  selectedIdx : Option Nat
  rows : List Row
  toasts : List PyStr
  applyCalls : Nat
deriving DecidableEq

/-- `on_set_selected` (main.py 653–694): the guard returns silently;
then the selection check, the `len(servers) < 2` check, and only then
`_is_setting_dns = True` and the worker start. -/
def on_set_selected (st : UiState) : UiState :=
  if st.isSettingDns then st
  else
    match st.selectedIdx with
    | none => { st with toasts := st.toasts ++ [pys "Select a profile first"] }
    | some idx =>
      match st.rows[idx]? with
      | none => st
      | some row =>
        let servers := ((splitOnChar ',' row.servers).map pyStrip).filter (fun s => s ≠ [])
        if servers.length < 2 then
          { st with
            toasts := st.toasts ++ [pys "Provide at least two DNS servers before applying"] }
        else { st with isSettingDns := true, applyCalls := st.applyCalls + 1 }

/-! ## Claim-side definitions (formalized from the spec's words, for the
refinement comparisons) -/

/-- C6's IPv4 clause as the claim words it: exactly four dot-separated
decimal groups, each with value in [0,255] (no bound on group length). -/
def claimIPv4 (a : PyStr) : Prop :=
  (splitOnChar '.' a).length = 4 ∧
    ∀ p ∈ splitOnChar '.' a,
      p ≠ [] ∧ (∀ c ∈ p, c.isDigit = true) ∧ parseDec p ≤ 255

/-- C6's IPv4 clause amended with the group-length bound the code's
regex `\d{1,3}` enforces: one to three digits per group. -/
def claimIPv4Len (a : PyStr) : Prop :=
  (splitOnChar '.' a).length = 4 ∧
    ∀ p ∈ splitOnChar '.' a,
      (1 ≤ p.length ∧ p.length ≤ 3) ∧ (∀ c ∈ p, c.isDigit = true) ∧ parseDec p ≤ 255

/-- C6's IPv6 clause: contains a colon and consists only of hex digits
and colon characters. -/
def claimIPv6 (a : PyStr) : Prop :=
  ':' ∈ a ∧ ∀ c ∈ a, isHexDigitOrColon c = true

instance (a : PyStr) : Decidable (claimIPv4 a) :=
  inferInstanceAs (Decidable ((splitOnChar '.' a).length = 4 ∧
    ∀ p ∈ splitOnChar '.' a, p ≠ [] ∧ (∀ c ∈ p, c.isDigit = true) ∧ parseDec p ≤ 255))

instance (a : PyStr) : Decidable (claimIPv4Len a) :=
  inferInstanceAs (Decidable ((splitOnChar '.' a).length = 4 ∧
    ∀ p ∈ splitOnChar '.' a,
      (1 ≤ p.length ∧ p.length ≤ 3) ∧ (∀ c ∈ p, c.isDigit = true) ∧ parseDec p ≤ 255))

instance (a : PyStr) : Decidable (claimIPv6 a) :=
  inferInstanceAs (Decidable (':' ∈ a ∧ ∀ c ∈ a, isHexDigitOrColon c = true))

/-! ## Concrete fixtures used by the claims' examples -/

/-- The `[(A,50),(B,0),(C,30)]` profile list of C1's example. -/
def exRows : List Row :=
  [{ name := pys "A", servers := pys "1.1.1.1, 1.0.0.1", latency := 50 },
   { name := pys "B", servers := pys "8.8.8.8, 8.8.4.4", latency := 0 },
   { name := pys "C", servers := pys "9.9.9.9, 149.112.112.112", latency := 30 }]

/-- Per-server probe oracle for the C4 witness: `10.0.0.1` answers in
10 ms, every other server fails. -/
def measDemo : PyStr → Option ℚ := fun s => if s = pys "10.0.0.1" then some 10 else none

/-- A well-formed persisted sequence whose record name carries
surrounding whitespace. -/
def exRaw : List RawRecord :=
  [{ name := some (pys " A ")
     servers := ServersField.strList [pys "1.1.1.1", pys "1.0.0.1"] }]

/-- A well-formed persisted sequence with already-trimmed names. -/
def okRaw : List RawRecord :=
  [{ name := some (pys "Cloudflare")
     servers := ServersField.strList [pys "1.1.1.1", pys "1.0.0.1"] },
   { name := some (pys "Google DNS")
     servers := ServersField.strList [pys "8.8.8.8", pys "8.8.4.4"] }]

/-- A network environment with no active NetworkManager connection. -/
def envNoConn : NetEnv :=
  { activeUuid := none, pkexecSucceeds := true, verifyOutput := none }

/-- A sort state right after a successful "Test All" run. -/
def sortDemoState : SortState :=
  { sortAsc := true
    latencyMeasured := true
    rows := [{ name := pys "Google DNS", servers := pys "8.8.8.8, 8.8.4.4", latency := 40 },
             { name := pys "Cloudflare", servers := pys "1.1.1.1, 1.0.0.1", latency := 20 }] }

/-- A UI state with an activation already in flight (`_is_setting_dns`
set by a first Set-DNS click whose worker has not finished). -/
def busyState : UiState :=
  { isSettingDns := true
    selectedIdx := some 0
    rows := [{ name := pys "Cloudflare", servers := pys "1.1.1.1, 1.0.0.1", latency := 0 }]
    toasts := []
    applyCalls := 1 }

example : pyStrip (pys " a ") = pys "a" := by decide
example : splitOnChar '.' (pys "1.1.1.1") = [pys "1", pys "1", pys "1", pys "1"] := by decide
example : is_valid_ip (pys "1.1.1.1") = true := by decide
example : is_valid_ip (pys "999.1.1.1") = false := by decide
example : is_valid_ip (pys "2606:4700:4700::1111") = true := by decide
example : is_valid_ip (pys "1.1.1") = false := by decide
example : is_valid_ip (pys "") = false := by decide
example : sanitize_servers [pys "1.1.1.1", pys " ", pys "1.0.0.1"]
    = Except.ok [pys "1.1.1.1", pys "1.0.0.1"] := by decide
example : sanitize_servers [pys "1.1.1.1"]
    = Except.error SanitizeError.insufficientServers := by decide

/-! # Supporting lemmas -/

theorem pyStrLe_total : ∀ s t : PyStr, pyStrLe s t = true ∨ pyStrLe t s = true
  | [], _ => Or.inl rfl
  | _ :: _, [] => Or.inr rfl
  | c :: cs, d :: ds => by
    rcases lt_trichotomy c d with h | h | h
    · left; simp [pyStrLe, h]
    · subst h
      have := pyStrLe_total cs ds
      simpa [pyStrLe, lt_irrefl] using this
    · right; simp [pyStrLe, h]

theorem pyStrLe_trans :
    ∀ s t u : PyStr, pyStrLe s t = true → pyStrLe t u = true → pyStrLe s u = true
  | [], _, _, _, _ => rfl
  | _ :: _, [], _, h1, _ => by simp [pyStrLe] at h1
  | _ :: _, _ :: _, [], _, h2 => by simp [pyStrLe] at h2
  | c :: cs, d :: ds, e :: es, h1, h2 => by
    rcases lt_trichotomy c d with hcd | hcd | hcd
    · rcases lt_trichotomy d e with hde | hde | hde
      · simp [pyStrLe, lt_trans hcd hde]
      · subst hde; simp [pyStrLe, hcd]
      · simp [pyStrLe, hde.asymm, hde] at h2
    · subst hcd
      rcases lt_trichotomy c e with hce | hce | hce
      · simp [pyStrLe, hce]
      · subst hce
        simp only [pyStrLe, lt_irrefl, if_false] at h1 h2 ⊢
        exact pyStrLe_trans cs ds es h1 h2
      · simp [pyStrLe, hce.asymm, hce] at h2
    · simp [pyStrLe, hcd.asymm, hcd] at h1

theorem keyLe_total (x y : ℚ × PyStr) : keyLe x y = true ∨ keyLe y x = true := by
  rcases lt_trichotomy x.1 y.1 with h | h | h
  · left; simp [keyLe, h]
  · have := pyStrLe_total x.2 y.2
    simpa [keyLe, h, lt_irrefl] using this
  · right; simp [keyLe, h]

theorem keyLe_trans (x y z : ℚ × PyStr) :
    keyLe x y = true → keyLe y z = true → keyLe x z = true := by
  unfold keyLe
  intro h1 h2
  rcases lt_trichotomy x.1 y.1 with hxy | hxy | hxy
  · rcases lt_trichotomy y.1 z.1 with hyz | hyz | hyz
    · simp [lt_trans hxy hyz]
    · simp [hyz ▸ hxy]
    · simp [hyz.asymm, hyz] at h2
  · rcases lt_trichotomy y.1 z.1 with hyz | hyz | hyz
    · simp [lt_of_le_of_lt hxy.le hyz]
    · rw [hxy] at h1 ⊢
      rw [hyz] at h2 ⊢
      simp only [lt_irrefl, if_false] at h1 h2 ⊢
      exact pyStrLe_trans _ _ _ h1 h2
    · simp [hyz.asymm, hyz] at h2
  · simp [hxy.asymm, hxy] at h1

theorem relRow_total (asc : Bool) (a b : Row) : relRow asc a b ∨ relRow asc b a := by
  unfold relRow
  cases asc
  · simpa using keyLe_total (sortKey b) (sortKey a)
  · simpa using keyLe_total (sortKey a) (sortKey b)

theorem relRow_trans (asc : Bool) (a b c : Row) :
    relRow asc a b → relRow asc b c → relRow asc a c := by
  unfold relRow
  cases asc
  · intro h1 h2
    simp only [Bool.false_eq_true, if_false] at h1 h2 ⊢
    exact keyLe_trans _ _ _ h2 h1
  · intro h1 h2
    simp only [if_true] at h1 h2 ⊢
    exact keyLe_trans _ _ _ h1 h2

theorem keyLe_sentinel {a b : Row} (ha : a.latency ≤ 0) (hb : 0 < b.latency)
    (hlt : b.latency < 1000000000) : keyLe (sortKey a) (sortKey b) = false := by
  have ha' : ¬ 0 < a.latency := not_lt.mpr ha
  simp [keyLe, sortKey, ha', hb, hlt.asymm, hlt]

/-! # Claims -/

/-- C1, counterexample: sorting `[(A,50),(B,0),(C,30)]` in the
descending direction puts the no-latency profile `B` first, not last,
so the claimed output `[A, C, B]` is wrong (the sentinel key `1e9` is
the largest key, and `reverse=True` flips it to the front). -/
theorem sortRows_desc_counterexample :
    (sortRows false exRows).map Row.name = [pys "B", pys "A", pys "C"] ∧
    ¬ ((sortRows false exRows).map Row.name = [pys "A", pys "C", pys "B"]) := by
  decide

/-- C1, amended: sorting by latency orders entries by the key
`(latency if latency > 0 else 1e9, name)` in the requested direction
(a stable sort, permuting the rows); when every valid latency is below
the `1e9` sentinel, entries with no strictly-positive latency are
placed at the end in the ascending direction but at the front in the
descending direction; sorting `[(A,50),(B,0),(C,30)]` ascending yields
`[C, A, B]` and descending yields `[B, A, C]`. -/
theorem sortRows_spec :
    (∀ (asc : Bool) (rows : List Row), (sortRows asc rows).Perm rows) ∧
    (∀ (asc : Bool) (rows : List Row), List.Sorted (relRow asc) (sortRows asc rows)) ∧
    (∀ rows : List Row, (∀ r ∈ rows, r.latency < 1000000000) →
        List.Pairwise (fun a b => a.latency ≤ 0 → b.latency ≤ 0) (sortRows true rows)) ∧
    (∀ rows : List Row, (∀ r ∈ rows, r.latency < 1000000000) →
        List.Pairwise (fun a b => 0 < a.latency → 0 < b.latency) (sortRows false rows)) ∧
    (sortRows true exRows).map Row.name = [pys "C", pys "A", pys "B"] ∧
    (sortRows false exRows).map Row.name = [pys "B", pys "A", pys "C"] := by
  have hperm : ∀ (asc : Bool) (rows : List Row), (sortRows asc rows).Perm rows :=
    fun asc rows => List.perm_insertionSort (relRow asc) rows
  have hsorted : ∀ (asc : Bool) (rows : List Row),
      List.Sorted (relRow asc) (sortRows asc rows) :=
    fun asc rows =>
      @List.sorted_insertionSort Row (relRow asc) _ ⟨relRow_total asc⟩ ⟨relRow_trans asc⟩ rows
  refine ⟨hperm, hsorted, ?_, ?_, by decide, by decide⟩
  · intro rows hbound
    refine (hsorted true rows).imp_of_mem ?_
    intro a b hma hmb hab ha0
    by_contra hb0
    push_neg at hb0
    have hblt : b.latency < 1000000000 := hbound b ((hperm true rows).subset hmb)
    have hfalse := keyLe_sentinel ha0 hb0 hblt
    unfold relRow at hab
    simp only [if_true] at hab
    rw [hfalse] at hab
    exact Bool.noConfusion hab
  · intro rows hbound
    refine (hsorted false rows).imp_of_mem ?_
    intro a b hma hmb hab hapos
    by_contra hb0
    push_neg at hb0
    have halt : a.latency < 1000000000 := hbound a ((hperm false rows).subset hma)
    have hfalse := keyLe_sentinel hb0 hapos halt
    unfold relRow at hab
    simp only [Bool.false_eq_true, if_false] at hab
    rw [hfalse] at hab
    exact Bool.noConfusion hab

/-- C1, witness for `sortRows_spec`: its sentinel-placement conjuncts
applied to the example rows. -/
theorem sortRows_spec_witness :
    List.Pairwise (fun a b : Row => a.latency ≤ 0 → b.latency ≤ 0) (sortRows true exRows) ∧
    List.Pairwise (fun a b : Row => 0 < a.latency → 0 < b.latency) (sortRows false exRows) :=
  ⟨sortRows_spec.2.2.1 exRows (by decide), sortRows_spec.2.2.2.1 exRows (by decide)⟩

/-- C10: `on_sort_latency` takes no direction argument — the direction
is the internal flag `_sort_asc`, initialized to ascending by
`__init__`; an invocation that actually sorts uses the current flag and
flips it for the next invocation, so successive sorts alternate; a
rejected invocation (no measurement yet, or no strictly-positive
latency) leaves the state, including the flag, unchanged. -/
theorem on_sort_latency_direction :
    (∀ rows : List Row, (initSortState rows).sortAsc = true) ∧
    (∀ st st' out, on_sort_latency st = (st', some out) →
        out = sortRows st.sortAsc st.rows ∧ st'.sortAsc = !st.sortAsc ∧
        st'.rows = out ∧ st'.latencyMeasured = st.latencyMeasured) ∧
    (∀ st st', on_sort_latency st = (st', none) → st' = st) := by
  refine ⟨fun _ => rfl, ?_, ?_⟩
  · intro st st' out h
    simp only [on_sort_latency] at h
    split at h
    · exact absurd h (by simp)
    · split at h
      · exact absurd h (by simp)
      · rw [Prod.mk.injEq] at h
        obtain ⟨hst, hout⟩ := h
        have ho := Option.some.inj hout
        subst ho
        subst hst
        exact ⟨rfl, rfl, rfl, rfl⟩
  · intro st st' h
    simp only [on_sort_latency] at h
    split at h
    · exact ((Prod.mk.injEq _ _ _ _).mp h).1.symm
    · split at h
      · exact ((Prod.mk.injEq _ _ _ _).mp h).1.symm
      · exact absurd h (by simp)

/-- C10, witness for `on_sort_latency_direction`: a successful sort at
a concrete post-test state flips the direction flag. -/
theorem on_sort_latency_direction_witness :
    (on_sort_latency sortDemoState).1.sortAsc = !sortDemoState.sortAsc :=
  (on_sort_latency_direction.2.1 sortDemoState (on_sort_latency sortDemoState).1
    (sortRows true sortDemoState.rows) (by decide)).2.1

/-- C2, counterexample: with an activation already in flight
(`busyState`), a second `on_set_selected` leaves the state — including
the toast list, the only channel reporting errors to the caller —
completely unchanged: the request is dropped silently, no
`AlreadyInProgress` error is reported. -/
theorem on_set_selected_busy_counterexample :
    on_set_selected busyState = busyState ∧
    (on_set_selected busyState).toasts = busyState.toasts ∧
    (on_set_selected busyState).applyCalls = busyState.applyCalls := by
  decide

/-- C2, amended: while one activation (Set DNS) is in flight, a second
activation request returns immediately with no effect at all — no error
message is reported, nothing is queued, and `apply_dns_with_one_pkexec`
is not invoked a second time (the `applyCalls` counter is unchanged). -/
theorem on_set_selected_guard :
    ∀ st : UiState, st.isSettingDns = true → on_set_selected st = st := by
  intro st h
  unfold on_set_selected
  simp [h]

/-- C2, witness for `on_set_selected_guard`: applied to the concrete
in-flight state. -/
theorem on_set_selected_guard_witness :
    on_set_selected busyState = busyState ∧ busyState.isSettingDns = true :=
  ⟨on_set_selected_guard busyState rfl, rfl⟩

/-! # Best-profile selection: loop invariant and C3 -/

theorem mem_of_getElemOpt {α : Type} {l : List α} {j : Nat} {x : α}
    (h : l[j]? = some x) : x ∈ l := by
  rcases List.getElem?_eq_some.mp h with ⟨hj, hx⟩
  exact hx ▸ List.getElem_mem hj

theorem getElemOpt_snoc {α : Type} (l : List α) (a : α) (j : Nat) :
    (l ++ [a])[j]? =
      if j < l.length then l[j]? else if j = l.length then some a else none := by
  by_cases h : j < l.length
  · simp [List.getElem?_append_left h, h]
  · rw [List.getElem?_append_right (not_lt.mp h)]
    by_cases he : j = l.length
    · simp [he, h]
    · have hd : j - l.length ≠ 0 := by omega
      cases hdj : j - l.length with
      | zero => exact absurd hdj hd
      | succ n => simp [h, he]

theorem PosMin_extend {pre : List ℚ} {bl : ℚ} {bi : Nat} (h : PosMin pre bl bi)
    (lat : ℚ) (hcase : 0 < lat → bl < lat ∨ bl = lat) :
    PosMin (pre ++ [lat]) bl bi := by
  obtain ⟨hbi, hpos, hmin⟩ := h
  have hbi_lt : bi < pre.length := (List.getElem?_eq_some.mp hbi).1
  refine ⟨by rw [List.getElem?_append_left hbi_lt]; exact hbi, hpos, ?_⟩
  intro j x hj hx
  rw [getElemOpt_snoc] at hj
  by_cases hjl : j < pre.length
  · rw [if_pos hjl] at hj
    exact hmin j x hj hx
  · rw [if_neg hjl] at hj
    by_cases hje : j = pre.length
    · rw [if_pos hje] at hj
      have hxl : x = lat := Option.some.inj hj.symm
      subst hxl
      rcases hcase hx with hlt | heq
      · exact Or.inl hlt
      · exact Or.inr ⟨heq, by omega⟩
    · rw [if_neg hje] at hj
      exact Option.noConfusion hj

theorem PosMin_new {pre : List ℚ} {lat : ℚ} (hpos : 0 < lat)
    (hall : ∀ (j : Nat) (x : ℚ), pre[j]? = some x → 0 < x → lat < x) :
    PosMin (pre ++ [lat]) lat pre.length := by
  refine ⟨?_, hpos, ?_⟩
  · rw [getElemOpt_snoc]
    simp
  · intro j x hj hx
    rw [getElemOpt_snoc] at hj
    by_cases hjl : j < pre.length
    · rw [if_pos hjl] at hj
      exact Or.inl (hall j x hj hx)
    · rw [if_neg hjl] at hj
      by_cases hje : j = pre.length
      · rw [if_pos hje] at hj
        exact Or.inr ⟨(Option.some.inj hj.symm).symm, by omega⟩
      · rw [if_neg hje] at hj
        exact Option.noConfusion hj

theorem findBestAux_invariant :
    ∀ (rest pre : List ℚ) (best : Option (ℚ × Nat)) (anyL : Bool),
      anyL = pre.any (fun x => decide (0 < x)) →
      BestInv pre best →
      (findBestAux rest pre.length best anyL).2
          = (pre ++ rest).any (fun x => decide (0 < x)) ∧
      BestInv (pre ++ rest) (findBestAux rest pre.length best anyL).1
  | [], pre, best, anyL, hany, hinv => by
    simp only [findBestAux, List.append_nil]
    exact ⟨hany, hinv⟩
  | lat :: rest, pre, best, anyL, hany, hinv => by
    rw [List.append_cons pre lat rest]
    have hl : (pre ++ [lat]).length = pre.length + 1 := by simp
    by_cases hpos : 0 < lat
    · have hany' : (true : Bool) = (pre ++ [lat]).any (fun x => decide (0 < x)) := by
        simp [List.any_append, hpos]
      cases best with
      | none =>
        have hinv' : BestInv (pre ++ [lat]) (some (lat, pre.length)) :=
          PosMin_new hpos (fun j x hj hx => absurd hx (hinv x (mem_of_getElemOpt hj)))
        have IH := findBestAux_invariant rest (pre ++ [lat]) (some (lat, pre.length))
          true hany' hinv'
        rw [hl] at IH
        simpa only [findBestAux, hpos, if_true] using IH
      | some p =>
        obtain ⟨bl, bi⟩ := p
        have hpm : PosMin pre bl bi := hinv
        obtain ⟨hbi, hblpos, hmin⟩ := hpm
        by_cases hlt : lat < bl
        · have hinv' : BestInv (pre ++ [lat]) (some (lat, pre.length)) := by
            refine PosMin_new hpos (fun j x hj hx => ?_)
            rcases hmin j x hj hx with hblx | ⟨hble, _⟩
            · exact lt_trans hlt hblx
            · exact hble ▸ hlt
          have IH := findBestAux_invariant rest (pre ++ [lat]) (some (lat, pre.length))
            true hany' hinv'
          rw [hl] at IH
          simpa only [findBestAux, hpos, hlt, if_true] using IH
        · have hinv' : BestInv (pre ++ [lat]) (some (bl, bi)) := by
            refine PosMin_extend ⟨hbi, hblpos, hmin⟩ lat (fun _ => ?_)
            rcases lt_or_eq_of_le (not_lt.mp hlt) with h | h
            · exact Or.inl h
            · exact Or.inr h
          have IH := findBestAux_invariant rest (pre ++ [lat]) (some (bl, bi))
            true hany' hinv'
          rw [hl] at IH
          simpa only [findBestAux, hpos, hlt, if_true, if_false] using IH
    · have hany' : anyL = (pre ++ [lat]).any (fun x => decide (0 < x)) := by
        simp [List.any_append, hpos, hany]
      have hinv' : BestInv (pre ++ [lat]) best := by
        cases best with
        | none =>
          intro x hx
          rcases List.mem_append.mp hx with hxp | hxl
          · exact hinv x hxp
          · rw [List.mem_singleton.mp hxl]; exact hpos
        | some p =>
          obtain ⟨bl, bi⟩ := p
          exact PosMin_extend hinv lat (fun hlp => absurd hlp hpos)
      have IH := findBestAux_invariant rest (pre ++ [lat]) best anyL hany' hinv'
      rw [hl] at IH
      simpa only [findBestAux, hpos, if_false] using IH

/-- C3: for every latency summary, `pickBest` returns `none` exactly
when no profile produced a strictly-positive latency, and any returned
index holds a strictly-positive latency that is minimal among all
strictly-positive latencies, with ties broken in favor of the lowest
index; over `[50, 0, 30, 0, 40]` it returns index `2`, over all-zero
latencies it returns `none`. -/
theorem pickBest_spec :
    ∀ lats : List ℚ,
      (pickBest lats = none ↔ ∀ x ∈ lats, ¬ 0 < x) ∧
      (∀ i : Nat, pickBest lats = some i →
        ∃ m : ℚ, lats[i]? = some m ∧ 0 < m ∧
          ∀ (j : Nat) (x : ℚ), lats[j]? = some x → 0 < x → m < x ∨ (m = x ∧ i ≤ j)) ∧
      pickBest [50, 0, 30, 0, 40] = some 2 ∧
      pickBest [0, 0, 0] = none := by
  intro lats
  have hmain := findBestAux_invariant lats [] none false rfl
    (fun x hx => absurd hx (List.not_mem_nil x))
  simp only [List.nil_append, List.length_nil] at hmain
  obtain ⟨hany, hbi⟩ := hmain
  refine ⟨⟨?_, ?_⟩, ?_, by decide, by decide⟩
  · intro hn x hx hpos
    unfold pickBest at hn
    rcases hfb : findBestAux lats 0 none false with ⟨b, a⟩
    rw [hfb] at hn hany hbi
    cases b with
    | none =>
      have hnp : NoPos lats := hbi
      exact hnp x hx hpos
    | some p =>
      obtain ⟨m, k⟩ := p
      cases a with
      | true => simp at hn
      | false =>
        have := List.any_eq_false.mp hany.symm x hx
        simp only [decide_eq_true_eq] at this
        exact this hpos
  · intro hall
    unfold pickBest
    rcases hfb : findBestAux lats 0 none false with ⟨b, a⟩
    rw [hfb] at hany
    have hanyf : lats.any (fun x => decide (0 < x)) = false := by
      apply List.any_eq_false.mpr
      intro x hx
      simpa using hall x hx
    rw [hanyf] at hany
    subst hany
    cases b with
    | none => rfl
    | some p =>
      obtain ⟨m, k⟩ := p
      rfl
  · intro i hi
    unfold pickBest at hi
    rcases hfb : findBestAux lats 0 none false with ⟨b, a⟩
    rw [hfb] at hi hbi
    cases b with
    | none => cases a <;> simp at hi
    | some p =>
      obtain ⟨m, k⟩ := p
      cases a with
      | false => simp at hi
      | true =>
        have hk : k = i := by simpa using hi
        subst hk
        have hpm : PosMin lats m k := hbi
        exact ⟨m, hpm.1, hpm.2.1, hpm.2.2⟩

/-- C3, witness for `pickBest_spec`: the minimality conjunct applied at
the example summary `[50, 0, 30, 0, 40]` and index `2`. -/
theorem pickBest_spec_witness :
    ∃ m : ℚ, ([50, 0, 30, 0, 40] : List ℚ)[2]? = some m ∧ 0 < m ∧
      ∀ (j : Nat) (x : ℚ), ([50, 0, 30, 0, 40] : List ℚ)[j]? = some x → 0 < x →
        m < x ∨ (m = x ∧ 2 ≤ j) :=
  (pickBest_spec [50, 0, 30, 0, 40]).2.1 2 (by decide)

/-! # Latency aggregation (C4) and sanitization (C5) -/

theorem measureLoop_eq (meas : PyStr → Option ℚ) :
    ∀ (servers : List PyStr) (acc : List ℚ),
      measureLoop meas servers acc = acc ++ servers.filterMap meas
  | [], acc => by simp [measureLoop]
  | srv :: rest, acc => by
    cases h : meas srv with
    | none => simp [measureLoop, h, measureLoop_eq meas rest acc, List.filterMap_cons]
    | some v => simp [measureLoop, h, measureLoop_eq meas rest (acc ++ [v]), List.filterMap_cons]

/-- C4: for every server sequence, measuring a profile returns the mean
of the per-server measurements that succeeded (given the resolver
library is present), returns `none` — not an error — when every server
failed, and a single failing server never aborts the measurement: it is
dropped and the remaining servers still decide the outcome. -/
theorem measure_dns_latency_spec :
    (∀ (dnsA : Bool) (meas : PyStr → Option ℚ) (servers : List PyStr),
        (∀ s ∈ servers, meas s = none) →
        measure_dns_latency dnsA meas servers = none) ∧
    (∀ (meas : PyStr → Option ℚ) (servers : List PyStr),
        servers.filterMap meas ≠ [] →
        measure_dns_latency true meas servers =
          some ((servers.filterMap meas).sum / ((servers.filterMap meas).length : ℚ))) ∧
    (∀ (dnsA : Bool) (meas : PyStr → Option ℚ) (pre : List PyStr) (srv : PyStr)
        (post : List PyStr), meas srv = none →
        measure_dns_latency dnsA meas (pre ++ srv :: post) =
          measure_dns_latency dnsA meas (pre ++ post)) := by
  refine ⟨?_, ?_, ?_⟩
  · intro dnsA meas servers hall
    unfold measure_dns_latency
    by_cases hguard : dnsA = false ∨ servers = []
    · rw [if_pos hguard]
    · rw [if_neg hguard]
      have hnil : measureLoop meas servers [] = [] := by
        rw [measureLoop_eq]
        simpa using List.filterMap_eq_nil_iff.mpr hall
      simp [hnil]
  · intro meas servers hne
    have hservers : servers ≠ [] := by
      rintro rfl
      simp at hne
    unfold measure_dns_latency
    rw [if_neg (by simp [hservers])]
    rw [measureLoop_eq]
    simp only [List.nil_append]
    rw [if_neg hne]
  · intro dnsA meas pre srv post h
    unfold measure_dns_latency
    by_cases hd : dnsA = false
    · simp [hd]
    · by_cases h2 : pre ++ post = []
      · obtain ⟨hp, hq⟩ := List.append_eq_nil.mp h2
        subst hp
        subst hq
        simp [hd, measureLoop_eq, h]
      · have hg1 : ¬ (dnsA = false ∨ pre ++ srv :: post = []) := by
          rintro (hfa | hni)
          · exact hd hfa
          · simp at hni
        have hg2 : ¬ (dnsA = false ∨ pre ++ post = []) := by
          rintro (hfa | hni)
          · exact hd hfa
          · exact h2 hni
        rw [if_neg hg1, if_neg hg2]
        rw [measureLoop_eq, measureLoop_eq]
        simp [List.filterMap_append, List.filterMap_cons, h]

/-- C4, witness for `measure_dns_latency_spec`: one reachable and one
unreachable server; the mean of the single success is returned. -/
theorem measure_dns_latency_spec_witness :
    measure_dns_latency true measDemo [pys "10.0.0.1", pys "8.8.8.8"] = some 10 := by
  have h := measure_dns_latency_spec.2.1 measDemo [pys "10.0.0.1", pys "8.8.8.8"] (by decide)
  have hfm : List.filterMap measDemo [pys "10.0.0.1", pys "8.8.8.8"] = [10] := by decide
  rw [hfm] at h
  simpa using h

theorem sanitizeLoop_eq :
    ∀ servers : List PyStr,
      sanitizeLoop servers =
        match (cleaned servers).find? (fun t => !is_valid_ip t) with
        | some b => Except.error (SanitizeError.invalidAddress b)
        | none => Except.ok (cleaned servers)
  | [] => by simp [sanitizeLoop, cleaned]
  | s :: rest => by
    have IH := sanitizeLoop_eq rest
    by_cases h0 : pyStrip s = []
    · have hc : cleaned (s :: rest) = cleaned rest := by
        simp [cleaned, List.filter_cons, h0]
      simp only [sanitizeLoop, h0, if_true]
      rw [IH, hc]
    · have hc : cleaned (s :: rest) = pyStrip s :: cleaned rest := by
        simp [cleaned, List.filter_cons, h0]
      by_cases hv : is_valid_ip (pyStrip s) = false
      · simp only [sanitizeLoop, h0, hv, if_false, if_true]
        rw [hc]
        simp [List.find?_cons, hv]
      · simp only [sanitizeLoop, h0, hv, if_false]
        have hvt : is_valid_ip (pyStrip s) = true := by
          cases hval : is_valid_ip (pyStrip s)
          · exact absurd hval hv
          · rfl
        rw [IH, hc]
        cases hf : (cleaned rest).find? (fun t => !is_valid_ip t) with
        | some b => simp [List.find?_cons, hvt, hf]
        | none => simp [List.find?_cons, hvt, hf]

/-- C5: sanitizing trims each entry and drops the empty ones; if some
surviving entry fails validation, the result is `InvalidAddress` naming
the first such entry; if all survive validation the call succeeds
exactly when at least two entries remain, and fails with
`InsufficientServers` otherwise; the claim's two examples hold. -/
theorem sanitize_servers_spec :
    ∀ servers : List PyStr,
      ((∀ t ∈ cleaned servers, is_valid_ip t = true) → 2 ≤ (cleaned servers).length →
          sanitize_servers servers = Except.ok (cleaned servers)) ∧
      ((∀ t ∈ cleaned servers, is_valid_ip t = true) → (cleaned servers).length < 2 →
          sanitize_servers servers = Except.error SanitizeError.insufficientServers) ∧
      (∀ b, (cleaned servers).find? (fun t => !is_valid_ip t) = some b →
          sanitize_servers servers = Except.error (SanitizeError.invalidAddress b)) ∧
      sanitize_servers [pys "1.1.1.1", pys " ", pys "1.0.0.1"]
        = Except.ok [pys "1.1.1.1", pys "1.0.0.1"] ∧
      sanitize_servers [pys "1.1.1.1"] = Except.error SanitizeError.insufficientServers := by
  intro servers
  refine ⟨?_, ?_, ?_, by decide, by decide⟩
  · intro hall hlen
    have hf : (cleaned servers).find? (fun t => !is_valid_ip t) = none := by
      apply List.find?_eq_none.mpr
      intro x hx
      simp [hall x hx]
    unfold sanitize_servers
    rw [sanitizeLoop_eq, hf]
    simp [Nat.not_lt.mpr hlen]
  · intro hall hlen
    have hf : (cleaned servers).find? (fun t => !is_valid_ip t) = none := by
      apply List.find?_eq_none.mpr
      intro x hx
      simp [hall x hx]
    unfold sanitize_servers
    rw [sanitizeLoop_eq, hf]
    simp [hlen]
  · intro b hb
    unfold sanitize_servers
    rw [sanitizeLoop_eq, hb]

/-- C5, witness for `sanitize_servers_spec`: the fail-fast conjunct at
a list whose middle entry is invalid. -/
theorem sanitize_servers_spec_witness :
    sanitize_servers [pys "1.1.1.1", pys "bad", pys "1.0.0.1"]
      = Except.error (SanitizeError.invalidAddress (pys "bad")) :=
  (sanitize_servers_spec [pys "1.1.1.1", pys "bad", pys "1.0.0.1"]).2.2.1
    (pys "bad") (by decide)

/-! # Address validation (C6) -/

theorem contains_colon_iff (a : PyStr) : a.contains ':' = true ↔ ':' ∈ a := by
  simp

theorem splitOnChar_ne_nil (sep : Char) : ∀ l : PyStr, splitOnChar sep l ≠ []
  | [] => by simp [splitOnChar]
  | c :: cs => by
    simp only [splitOnChar]
    by_cases h : c = sep
    · simp [h]
    · simp only [h, if_false]
      cases hs : splitOnChar sep cs with
      | nil => simp
      | cons g gs => simp

theorem exists_mem_splitOnChar (sep : Char) :
    ∀ (l : PyStr) (c : Char), c ∈ l → c = sep ∨ ∃ p ∈ splitOnChar sep l, c ∈ p
  | [], c, h => absurd h (List.not_mem_nil c)
  | d :: ds, c, h => by
    by_cases hd : d = sep
    · have heq : splitOnChar sep (d :: ds) = [] :: splitOnChar sep ds := by
        simp [splitOnChar, hd]
      rcases List.mem_cons.mp h with hcd | hcs
      · exact Or.inl (hcd.trans hd)
      · rcases exists_mem_splitOnChar sep ds c hcs with hsep | ⟨p, hp, hcp⟩
        · exact Or.inl hsep
        · refine Or.inr ⟨p, ?_, hcp⟩
          rw [heq]
          exact List.mem_cons_of_mem [] hp
    · cases hs : splitOnChar sep ds with
      | nil => exact absurd hs (splitOnChar_ne_nil sep ds)
      | cons g gs =>
        have heq : splitOnChar sep (d :: ds) = (d :: g) :: gs := by
          simp [splitOnChar, hd, hs]
        rcases List.mem_cons.mp h with hcd | hcs
        · refine Or.inr ⟨d :: g, ?_, by simp [hcd]⟩
          rw [heq]
          exact List.mem_cons_self _ _
        · rcases exists_mem_splitOnChar sep ds c hcs with hsep | ⟨p, hp, hcp⟩
          · exact Or.inl hsep
          · rw [hs] at hp
            rcases List.mem_cons.mp hp with hpg | hpgs
            · refine Or.inr ⟨d :: g, ?_, List.mem_cons_of_mem d (hpg ▸ hcp)⟩
              rw [heq]
              exact List.mem_cons_self _ _
            · refine Or.inr ⟨p, ?_, hcp⟩
              rw [heq]
              exact List.mem_cons_of_mem _ hpgs

theorem ipv4ReMatch_shape (a : PyStr) :
    ipv4ReMatch a = true ↔
      ((splitOnChar '.' a).length = 4 ∧
        ∀ p ∈ splitOnChar '.' a,
          (1 ≤ p.length ∧ p.length ≤ 3) ∧ ∀ c ∈ p, c.isDigit = true) := by
  unfold ipv4ReMatch ipv4GroupShape
  simp only [Bool.and_eq_true, decide_eq_true_eq, List.all_eq_true]

theorem no_colon_of_ipv4ReMatch {a : PyStr} (h : ipv4ReMatch a = true) : ¬ ':' ∈ a := by
  intro hc
  rcases exists_mem_splitOnChar '.' a ':' hc with hsep | ⟨p, hp, hcp⟩
  · exact absurd hsep (by decide)
  · have hdig := (((ipv4ReMatch_shape a).mp h).2 p hp).2 ':' hcp
    exact absurd hdig (by decide)

theorem claimIPv4Len_iff (a : PyStr) :
    claimIPv4Len a ↔
      (ipv4ReMatch a = true ∧ ∀ p ∈ splitOnChar '.' a, parseDec p ≤ 255) := by
  rw [ipv4ReMatch_shape]
  unfold claimIPv4Len
  constructor
  · rintro ⟨h4, hall⟩
    exact ⟨⟨h4, fun p hp => ⟨(hall p hp).1, (hall p hp).2.1⟩⟩, fun p hp => (hall p hp).2.2⟩
  · rintro ⟨⟨h4, hsh⟩, hval⟩
    exact ⟨h4, fun p hp => ⟨(hsh p hp).1, (hsh p hp).2, hval p hp⟩⟩

/-- C6, counterexample: `"0000.0.0.0"` is four dot-separated decimal
groups with values in [0,255] (the claim's IPv4 clause), yet the code's
regex `\d{1,3}` rejects the four-digit group, so `is_valid_ip` returns
`false` and the claimed characterization fails. -/
theorem is_valid_ip_claim_counterexample :
    ¬ (is_valid_ip (pys "0000.0.0.0") = true ↔
        (claimIPv4 (pyStrip (pys "0000.0.0.0")) ∨ claimIPv6 (pyStrip (pys "0000.0.0.0")))) := by
  decide

/-- C6, amended: after trimming, a string is accepted iff it is either
exactly four dot-separated groups of one to three decimal digits each
with value in [0,255], or it contains a colon and consists only of hex
digits and colons; "1.1.1.1", "8.8.8.8" and "2606:4700:4700::1111" are
accepted while "", "999.1.1.1" and "1.1.1" are rejected. -/
theorem is_valid_ip_spec :
    (∀ addr : PyStr, is_valid_ip addr = true ↔
        (claimIPv4Len (pyStrip addr) ∨ claimIPv6 (pyStrip addr))) ∧
    is_valid_ip (pys "1.1.1.1") = true ∧
    is_valid_ip (pys "8.8.8.8") = true ∧
    is_valid_ip (pys "2606:4700:4700::1111") = true ∧
    is_valid_ip (pys "") = false ∧
    is_valid_ip (pys "999.1.1.1") = false ∧
    is_valid_ip (pys "1.1.1") = false := by
  refine ⟨?_, by decide, by decide, by decide, by decide, by decide, by decide⟩
  intro addr
  unfold is_valid_ip
  set a := pyStrip addr with ha
  by_cases h0 : a = []
  · rw [if_pos h0]
    constructor
    · intro hfalse
      exact absurd hfalse (by simp)
    · rintro (h4 | h6)
      · rcases h4 with ⟨hlen, _⟩
        rw [h0] at hlen
        simp [splitOnChar] at hlen
      · rcases h6 with ⟨hc, _⟩
        rw [h0] at hc
        exact absurd hc (List.not_mem_nil _)
  · rw [if_neg h0]
    by_cases h4 : ipv4ReMatch a = true
    · rw [if_pos h4]
      have hnc := no_colon_of_ipv4ReMatch h4
      constructor
      · intro hv
        left
        rw [claimIPv4Len_iff]
        refine ⟨h4, fun p hp => ?_⟩
        have := List.all_eq_true.mp hv p hp
        simpa using this
      · rintro (hcl | hcl)
        · rw [claimIPv4Len_iff] at hcl
          apply List.all_eq_true.mpr
          intro p hp
          simpa using hcl.2 p hp
        · exact absurd hcl.1 hnc
    · rw [if_neg h4]
      by_cases hc : a.contains ':' = true
      · rw [if_pos hc]
        have hcm : ':' ∈ a := (contains_colon_iff a).mp hc
        constructor
        · intro hv
          right
          exact ⟨hcm, fun c hcmem => List.all_eq_true.mp hv c hcmem⟩
        · rintro (hcl | hcl)
          · rw [claimIPv4Len_iff] at hcl
            exact absurd hcl.1 h4
          · exact List.all_eq_true.mpr hcl.2
      · rw [if_neg hc]
        constructor
        · intro hfalse
          exact absurd hfalse (by simp)
        · rintro (hcl | hcl)
          · rw [claimIPv4Len_iff] at hcl
            exact absurd hcl.1 h4
          · exact absurd ((contains_colon_iff a).mpr hcl.1) hc

/-- C6, witness for `is_valid_ip_spec`: the characterization applied at
a concrete address. -/
theorem is_valid_ip_spec_witness :
    is_valid_ip (pys "192.168.0.254") = true :=
  (is_valid_ip_spec.1 (pys "192.168.0.254")).mpr (Or.inl (by decide))

/-! # Persistence round-trip (C7, C9) and activation preconditions (C8) -/

/-- C7, counterexample: the well-formed sequence `exRaw` (one record,
name `" A "`, two server strings) does not survive `save ∘ load`: the
loader strips the name, so the saved record's name is `"A"`. -/
theorem roundtrip_counterexample :
    (∀ r ∈ exRaw, wellFormedRecord r = true) ∧
    save_profiles (load_profiles (some exRaw)) ≠ exRaw := by
  decide

/-- C7, amended: for every well-formed persisted profile sequence (each
record a name string and a list of server strings) whose names are
already whitespace-trimmed, saving the result of loading reproduces the
sequence exactly, preserving record order. -/
theorem roundtrip_spec :
    ∀ x : List RawRecord,
      (∀ r ∈ x, wellFormedRecord r = true) →
      (∀ r ∈ x, pyStrip (r.name.getD []) = r.name.getD []) →
      save_profiles (load_profiles (some x)) = x := by
  intro x
  induction x with
  | nil => intro _ _; rfl
  | cons r rest ih =>
    intro hwf htrim
    obtain ⟨rn, rs⟩ := r
    have hw := hwf ⟨rn, rs⟩ (List.mem_cons_self _ _)
    unfold wellFormedRecord at hw
    cases rn with
    | none => simp at hw
    | some s =>
      cases rs with
      | missing => simp at hw
      | legacy t => simp at hw
      | strList l =>
        have hs : pyStrip s = s := by
          have := htrim ⟨some s, ServersField.strList l⟩ (List.mem_cons_self _ _)
          simpa using this
        have hrest : save_profiles (load_profiles (some rest)) = rest :=
          ih (fun q hq => hwf q (List.mem_cons_of_mem _ hq))
             (fun q hq => htrim q (List.mem_cons_of_mem _ hq))
        simp only [load_profiles, save_profiles, List.map_cons] at hrest ⊢
        rw [hrest]
        simp [loadRecord, loadServersField, hs]

/-- C7, witness for `roundtrip_spec`: a two-record store with trimmed
names round-trips unchanged. -/
theorem roundtrip_spec_witness :
    save_profiles (load_profiles (some okRaw)) = okRaw :=
  roundtrip_spec okRaw (by decide) (by decide)

theorem apply_invoked_iff (env : NetEnv) (servers : List PyStr) :
    (apply_dns_with_one_pkexec env servers).pkexecInvoked = true ↔
      ((apply_dns_with_one_pkexec env servers).result = Except.ok () ∨
       (apply_dns_with_one_pkexec env servers).result = Except.error ApplyError.applyFailed ∨
       (apply_dns_with_one_pkexec env servers).result
          = Except.error ApplyError.verificationFailed) := by
  unfold apply_dns_with_one_pkexec
  rcases hs : sanitize_servers servers with e | out
  · cases e <;> simp [hs]
  · rcases hu : env.activeUuid with _ | uuid
    · simp [hs, hu]
    · by_cases hq : uuid = []
      · simp [hs, hu, hq]
      · by_cases hp : env.pkexecSucceeds = false
        · simp [hs, hu, hq, hp]
        · rcases hv : env.verifyOutput with _ | pr
          · simp [hs, hu, hq, hp, hv]
          · obtain ⟨o4, o6⟩ := pr
            by_cases hz : pyStrip o4 = [] ∧ pyStrip o6 = []
            · simp [hs, hu, hq, hp, hv, hz]
            · simp [hs, hu, hq, hp, hv, hz]

/-- C8: activation reports validation and precondition errors before
any external side effect — whenever the outcome is `InvalidAddress`,
`InsufficientServers` or `NoActiveConnection`, the privileged `pkexec`
command was never started; and with servers that sanitize successfully
but no active connection (no uuid, or a falsy empty one), the outcome
is exactly `NoActiveConnection` with no side effect. -/
theorem apply_dns_precondition_errors :
    (∀ (env : NetEnv) (servers : List PyStr) (s : PyStr),
        (apply_dns_with_one_pkexec env servers).result
            = Except.error (ApplyError.invalidAddress s) →
        (apply_dns_with_one_pkexec env servers).pkexecInvoked = false) ∧
    (∀ (env : NetEnv) (servers : List PyStr),
        (apply_dns_with_one_pkexec env servers).result
            = Except.error ApplyError.insufficientServers →
        (apply_dns_with_one_pkexec env servers).pkexecInvoked = false) ∧
    (∀ (env : NetEnv) (servers : List PyStr),
        (apply_dns_with_one_pkexec env servers).result
            = Except.error ApplyError.noActiveConnection →
        (apply_dns_with_one_pkexec env servers).pkexecInvoked = false) ∧
    (∀ (env : NetEnv) (servers : List PyStr) (out : List PyStr),
        sanitize_servers servers = Except.ok out →
        (env.activeUuid = none ∨ env.activeUuid = some []) →
        apply_dns_with_one_pkexec env servers =
          ⟨Except.error ApplyError.noActiveConnection, false⟩) := by
  refine ⟨?_, ?_, ?_, ?_⟩
  · intro env servers s h
    cases hinv : (apply_dns_with_one_pkexec env servers).pkexecInvoked
    · rfl
    · exfalso
      rcases (apply_invoked_iff env servers).mp hinv with hr | hr | hr <;>
        rw [h] at hr <;> simp at hr
  · intro env servers h
    cases hinv : (apply_dns_with_one_pkexec env servers).pkexecInvoked
    · rfl
    · exfalso
      rcases (apply_invoked_iff env servers).mp hinv with hr | hr | hr <;>
        rw [h] at hr <;> simp at hr
  · intro env servers h
    cases hinv : (apply_dns_with_one_pkexec env servers).pkexecInvoked
    · rfl
    · exfalso
      rcases (apply_invoked_iff env servers).mp hinv with hr | hr | hr <;>
        rw [h] at hr <;> simp at hr
  · intro env servers out hs hu
    unfold apply_dns_with_one_pkexec
    rcases hu with hu | hu <;> simp [hs, hu]

/-- C8, witness for `apply_dns_precondition_errors`: valid servers, no
active connection — `NoActiveConnection` and the privileged command
untouched. -/
theorem apply_dns_precondition_errors_witness :
    apply_dns_with_one_pkexec envNoConn [pys "1.1.1.1", pys "1.0.0.1"] =
      ⟨Except.error ApplyError.noActiveConnection, false⟩ :=
  apply_dns_precondition_errors.2.2.2 envNoConn [pys "1.1.1.1", pys "1.0.0.1"]
    [pys "1.1.1.1", pys "1.0.0.1"] (by decide) (Or.inl rfl)

/-- C9: loading the persisted store never raises to the caller — it is
a total function; content that fails to parse at all yields the empty
sequence, and parsed content yields exactly one profile per record. -/
theorem load_profiles_total :
    load_profiles none = [] ∧
    ∀ rs : List RawRecord, (load_profiles (some rs)).length = rs.length :=
  ⟨rfl, fun rs => by simp [load_profiles]⟩
